import Mathlib

set_option maxRecDepth 8000

namespace ImageSearch

/-! Shallow embedding of the image_search crate: record extraction (`unpack`),
the search limit logic (`search`), the content classifier inside
`download_image`, path reservation inside `download`, and the concurrent
download orchestrator (`download_n` / `download_until`), from src/lib.rs and
src/blocking/mod.rs. -/

/-- View of an `Except` value as a sum, used to derive decidable equality. -/
def exceptToSum {ε α : Type} : Except ε α → ε ⊕ α
  | .error e => .inl e
  | .ok a => .inr a

instance {ε α : Type} [DecidableEq ε] [DecidableEq α] :
    DecidableEq (Except ε α) := fun a b =>
  decidable_of_iff (exceptToSum a = exceptToSum b)
    (by cases a <;> cases b <;> simp [exceptToSum])

/-- Generic JSON value tree: the model of `serde_json::Value` that `unpack`
navigates. Numbers are modelled as integers, which is the only shape `as_i64`
accepts. -/
inductive Json where
  | null : Json
  | bool (b : Bool) : Json
  | num (n : Int) : Json
  | str (s : String) : Json
  | arr (xs : List Json) : Json
  | obj (kvs : List (String × Json)) : Json

/-- Model of `Value::as_array`: `Some` only on arrays (wrong type gives `None`). -/
def Json.as_array : Json → Option (List Json)
  | .arr xs => some xs
  | _ => none

/-- Model of `Value::as_object`: the object is an association list of key-value
pairs. -/
def Json.as_object : Json → Option (List (String × Json))
  | .obj kvs => some kvs
  | _ => none

/-- Model of `Value::as_str`. -/
def Json.as_str : Json → Option String
  | .str s => some s
  | _ => none

/-- Model of `Value::as_i64`. -/
def Json.as_i64 : Json → Option Int
  | .num n => some n
  | _ => none

/-- Lookup of a key in a JSON object, modelling `serde_json::Map` key access.
`none` corresponds to the Rust `Map` indexing panic on a missing key. -/
def jlookup (key : String) : List (String × Json) → Option Json
  | [] => none
  | (k, v) :: rest => if k = key then some v else jlookup key rest

/-- The `Image` struct of src/lib.rs (lines 397-404): url, width, height,
thumbnail, source. Width and height are `i64` values in the source. -/
structure Image where
  url : String
  width : Int
  height : Int
  thumbnail : String
  source : String
deriving DecidableEq

/-- Outcome of a navigation phase of `unpack`. `panic` models a Rust panic
(out-of-bounds `Vec` index or missing `serde_json::Map` key), `fail` models an
`Option::None` that `unpack` propagates (via `?` or `uoc!`), and `found` is a
successful navigation. -/
inductive Ext (α : Type) where
  | panic : Ext α
  | fail : Ext α
  | found : α → Ext α
deriving DecidableEq

/-- The outer fixed navigation chain of `unpack` (src/lib.rs lines 786-791):
`json.as_array()?[56].as_array()?[1].as_array()?[0].as_array()?.last()?
.as_array()?[1].as_array()?[0].as_array()?`. Each `as_array()?` failure or the
`last()?` on an empty slice propagates `None` (`fail`), while each bare `Vec`
index out of bounds panics (`panic`). -/
def outerNav (j : Json) : Ext (List Json) :=
  match j.as_array with
  | none => .fail
  | some a0 =>
  match a0[56]? with
  | none => .panic
  | some x1 =>
  match x1.as_array with
  | none => .fail
  | some a1 =>
  match a1[1]? with
  | none => .panic
  | some x2 =>
  match x2.as_array with
  | none => .fail
  | some a2 =>
  match a2[0]? with
  | none => .panic
  | some x3 =>
  match x3.as_array with
  | none => .fail
  | some a3 =>
  match a3.getLast? with
  | none => .fail
  | some x4 =>
  match x4.as_array with
  | none => .fail
  | some a4 =>
  match a4[1]? with
  | none => .panic
  | some x5 =>
  match x5.as_array with
  | none => .fail
  | some a5 =>
  match a5[0]? with
  | none => .panic
  | some x6 =>
  match x6.as_array with
  | none => .fail
  | some a6 => .found a6

/-- The inner fixed navigation chain applied to one entry of the outer array
(src/lib.rs lines 795-816). Accessor failures (`as_array`, `as_object`,
`as_str`, `as_i64` on a wrong type) go through the `uoc!` macro and yield
`fail` (skip this entry, continue); bare `Vec` indexing (`[0]`, `[1]`, `[2]`,
`[3]`, `[22]`) and `Map` key indexing (`["444383007"]`, `["2003"]`) panic on a
missing index or key, yielding `panic`. Evaluation order follows the source:
the url/width/height triple from `inner[3]` (reading `i[0]`, then `i[2]`, then
`i[1]`), then the thumbnail from `inner[2]`, then the source from `inner[22]`. -/
def entryNav (obj : Json) : Ext Image :=
  match obj.as_array with
  | none => .fail
  | some b0 =>
  match b0[0]? with
  | none => .panic
  | some y1 =>
  match y1.as_array with
  | none => .fail
  | some b1 =>
  match b1[0]? with
  | none => .panic
  | some y2 =>
  match y2.as_object with
  | none => .fail
  | some m0 =>
  match jlookup "444383007" m0 with
  | none => .panic
  | some y3 =>
  match y3.as_array with
  | none => .fail
  | some b2 =>
  match b2[1]? with
  | none => .panic
  | some y4 =>
  match y4.as_array with
  | none => .fail
  | some inner =>
  match inner[3]? with
  | none => .panic
  | some t3 =>
  match t3.as_array with
  | none => .fail
  | some i =>
  match i[0]? with
  | none => .panic
  | some u0 =>
  match u0.as_str with
  | none => .fail
  | some url =>
  match i[2]? with
  | none => .panic
  | some w2 =>
  match w2.as_i64 with
  | none => .fail
  | some width =>
  match i[1]? with
  | none => .panic
  | some h1 =>
  match h1.as_i64 with
  | none => .fail
  | some height =>
  match inner[2]? with
  | none => .panic
  | some th2 =>
  match th2.as_array with
  | none => .fail
  | some ta =>
  match ta[0]? with
  | none => .panic
  | some th0 =>
  match th0.as_str with
  | none => .fail
  | some thumb =>
  match inner[22]? with
  | none => .panic
  | some s22 =>
  match s22.as_object with
  | none => .fail
  | some sm =>
  match jlookup "2003" sm with
  | none => .panic
  | some sv =>
  match sv.as_array with
  | none => .fail
  | some sa =>
  match sa[2]? with
  | none => .panic
  | some s2 =>
  match s2.as_str with
  | none => .fail
  | some src => .found ⟨url, width, height, thumb, src⟩

/-- The per-entry loop of `unpack` (src/lib.rs lines 793-819): each entry is
navigated with `entryNav`; a `fail` skips only that entry (the `uoc!` macro's
`continue`), a `panic` aborts the whole loop (`none`), and `found` appends the
image. -/
def processEntries : List Json → Option (List Image)
  | [] => some []
  | e :: rest =>
    match entryNav e with
    | .panic => none
    | .fail => processEntries rest
    | .found img => (processEntries rest).map (fun l => img :: l)

/-- The JSON-navigation phase of `unpack`: the outer chain, then the per-entry
loop. A `fail` of the outer chain makes `unpack` return `None`; a panic
anywhere propagates. -/
def unpackNav (j : Json) : Ext (List Image) :=
  match outerNav j with
  | .panic => .panic
  | .fail => .fail
  | .found es =>
    match processEntries es with
    | none => .panic
    | some imgs => .found imgs

/-- Indices at which `pat` occurs in `hay` (in increasing order). -/
def occIdx (pat hay : List Char) : List Nat :=
  (List.range (hay.length + 1)).filter (fun i => pat.isPrefixOf (hay.drop i))

/-- Model of Rust `str::find`: index of the first occurrence. -/
def strFind (pat hay : List Char) : Option Nat := (occIdx pat hay).head?

/-- Model of Rust `str::rfind`: index of the last occurrence. -/
def strRFind (pat hay : List Char) : Option Nat := (occIdx pat hay).getLast?

/-- Whether `pat` occurs in `hay` as a contiguous substring. -/
def hasSubChars (pat hay : List Char) : Bool := !(occIdx pat hay).isEmpty

/-- The anchor token `"AF_initDataCallback"` located by `unpack`
(src/lib.rs line 769). -/
def anchorChars : List Char := "AF_initDataCallback".data

/-- The `"</script>"` token located by `unpack` (src/lib.rs line 775). -/
def scriptEndChars : List Char := "</script>".data

/-- Model of `unpack` (src/lib.rs lines 768-822): slice the document text
after the last anchor occurrence, from the first `[`, up to `</script>`, then
back to the last `,`; parse the slice as JSON (the external `serde_json`
parser is the oracle `parseJ`); then navigate. Every slicing or parse failure
returns `None` (`fail`). -/
def unpack (parseJ : List Char → Option Json) (body : List Char) :
    Ext (List Image) :=
  match strRFind anchorChars body with
  | none => .fail
  | some i =>
    let b1 := body.drop i
    match strFind ['['] b1 with
    | none => .fail
    | some j =>
      let b2 := b1.drop j
      match strFind scriptEndChars b2 with
      | none => .fail
      | some k =>
        let b3 := b2.take k
        match strRFind [','] b3 with
        | none => .fail
        | some e =>
          let b4 := b3.take e
          match parseJ b4 with
          | none => .fail
          | some js => unpackNav js

/-- Caller-visible error type of the asynchronous API (src/lib.rs lines
406-411): `Parse`, `Dir`, `Network`. IO and reqwest error payloads are
modelled as numeric codes. -/
inductive PubError where
  | parse : PubError
  | dir (code : Nat) : PubError
  | network (code : Nat) : PubError
deriving DecidableEq

/-- Caller-visible error type of the blocking API (src/blocking/mod.rs lines
23-29): `Parse`, `Dir`, `Network`, and additionally `Runtime` for a tokio
runtime creation failure. -/
inductive BlockingError where
  | parse : BlockingError
  | dir (code : Nat) : BlockingError
  | network (code : Nat) : BlockingError
  | runtime (code : Nat) : BlockingError
deriving DecidableEq

/-- Whether a blocking error is one of the three kinds Parse, Dir, Network. -/
def isPDN : BlockingError → Bool
  | .parse => true
  | .dir _ => true
  | .network _ => true
  | .runtime _ => false

/-- The internal per-attempt error type `DownloadError` (src/lib.rs lines
433-439): `Overflow`, `Extension`, `Fs`, `Network`. -/
inductive DownloadError where
  | overflow : DownloadError
  | extension : DownloadError
  | fs (code : Nat) : DownloadError
  | network (code : Nat) : DownloadError
deriving DecidableEq

/-- Model of `search` (src/lib.rs lines 496-513): fetch the document (`getRes`
is the outcome of `get`), run `unpack`, and truncate the image list to `limit`
when `imgs.len() > limit && limit > 0`. The outer `Option` is `none` exactly
when `unpack` panics. -/
def search (limit : Nat) (getRes : Except Nat (List Char))
    (parseJ : List Char → Option Json) :
    Option (Except PubError (List Image)) :=
  match getRes with
  | .error c => some (.error (.network c))
  | .ok body =>
    match unpack parseJ body with
    | .panic => none
    | .fail => some (.error .parse)
    | .found imgs =>
      some (.ok (if imgs.length > limit ∧ limit > 0 then imgs.take limit else imgs))

/-- The category of a signature matched by the external `infer` crate
(`infer::MatcherType`). -/
inductive MatcherType where
  | app : MatcherType
  | archive : MatcherType
  | audio : MatcherType
  | book : MatcherType
  | custom : MatcherType
  | doc : MatcherType
  | font : MatcherType
  | image : MatcherType
  | text : MatcherType
  | video : MatcherType
deriving DecidableEq

/-- A matched signature returned by `infer::get`: its category and the
file extension it implies. -/
structure InferKind where
  mtype : MatcherType
  ext : String
deriving DecidableEq

/-- Whether a byte is a UTF-8 continuation byte (`10xxxxxx`). -/
def isCont (b : Nat) : Bool := 0x80 ≤ b && b ≤ 0xBF

/-- RFC 3629 UTF-8 validity of a byte sequence, modelling the success of
`std::str::from_utf8` (rejecting overlong encodings, surrogates, and values
above U+10FFFF). -/
def validUtf8 : List Nat → Bool
  | [] => true
  | b :: rest =>
    if b ≤ 0x7F then validUtf8 rest
    else if 0xC2 ≤ b && b ≤ 0xDF then
      match rest with
      | c1 :: r => isCont c1 && validUtf8 r
      | [] => false
    else if b = 0xE0 then
      match rest with
      | c1 :: c2 :: r => (0xA0 ≤ c1 && c1 ≤ 0xBF) && isCont c2 && validUtf8 r
      | _ => false
    else if (0xE1 ≤ b && b ≤ 0xEC) || b = 0xEE || b = 0xEF then
      match rest with
      | c1 :: c2 :: r => isCont c1 && isCont c2 && validUtf8 r
      | _ => false
    else if b = 0xED then
      match rest with
      | c1 :: c2 :: r => (0x80 ≤ c1 && c1 ≤ 0x9F) && isCont c2 && validUtf8 r
      | _ => false
    else if b = 0xF0 then
      match rest with
      | c1 :: c2 :: c3 :: r =>
        (0x90 ≤ c1 && c1 ≤ 0xBF) && isCont c2 && isCont c3 && validUtf8 r
      | _ => false
    else if 0xF1 ≤ b && b ≤ 0xF3 then
      match rest with
      | c1 :: c2 :: c3 :: r => isCont c1 && isCont c2 && isCont c3 && validUtf8 r
      | _ => false
    else if b = 0xF4 then
      match rest with
      | c1 :: c2 :: c3 :: r =>
        (0x80 ≤ c1 && c1 ≤ 0x8F) && isCont c2 && isCont c3 && validUtf8 r
      | _ => false
    else false

/-- Whether `pat` occurs in `hay` as a contiguous byte substring. -/
def hasSubNat (pat hay : List Nat) : Bool :=
  (List.range (hay.length + 1)).any (fun i => pat.isPrefixOf (hay.drop i))

/-- The bytes of the ASCII text `<svg`. Because the pattern is ASCII,
byte-level substring search on a valid UTF-8 prefix coincides with Rust's
`str::contains` on the decoded text. -/
def svgPat : List Nat := [60, 115, 118, 103]

/-- The svg text sniff of the blocking `download_image` (src/blocking/mod.rs
lines 290-294): take at most the first 1024 bytes, try to decode them as
UTF-8 (a decode failure means no match), and look for the substring `<svg`. -/
def svgSniff (buf : List Nat) : Bool :=
  let pre := buf.take 1024
  validUtf8 pre && hasSubNat svgPat pre

/-- The classification portion of the blocking `download_image`
(src/blocking/mod.rs lines 290-310): svg sniff first; only when it misses,
binary signature detection via `infer::get` (the oracle `inferGet`), failing
with `Extension` when nothing matches or the match is not an image. -/
def classifyB (inferGet : List Nat → Option InferKind) (buf : List Nat) :
    Except DownloadError String :=
  if svgSniff buf then .ok "svg"
  else
    match inferGet buf with
    | none => .error .extension
    | some k => if k.mtype = .image then .ok k.ext else .error .extension

/-- The classification portion of the asynchronous `download_image`
(src/lib.rs lines 711-718): binary signature detection only; there is no svg
text sniff in this variant. -/
def classifyA (inferGet : List Nat → Option InferKind) (buf : List Nat) :
    Except DownloadError String :=
  match inferGet buf with
  | none => .error .extension
  | some k => if k.mtype = .image then .ok k.ext else .error .extension

/-- Model of the asynchronous `download_image` (src/lib.rs lines 690-733).
`fetchRes` is the outcome of the GET request and body read; `createRes` and
`writeRes` are the outcomes of `File::create` and `write_all`. The returned
pair is the result (a path modelled as stem plus extension) together with a
flag recording whether a file was created on disk during the attempt. -/
def download_imageA (inferGet : List Nat → Option InferKind)
    (fetchRes : Except Nat (List Nat)) (stem : String)
    (createRes : Except Nat Unit) (writeRes : Except Nat Unit) :
    Except DownloadError (String × String) × Bool :=
  match fetchRes with
  | .error c => (.error (.network c), false)
  | .ok buf =>
    match classifyA inferGet buf with
    | .error e => (.error e, false)
    | .ok ext =>
      match createRes with
      | .error c => (.error (.fs c), false)
      | .ok _ =>
        match writeRes with
        | .error c => (.error (.fs c), true)
        | .ok _ => (.ok (stem, ext), true)

/-- Model of the blocking `download_image` (src/blocking/mod.rs lines
269-325), identical to the asynchronous one except for the svg sniff in its
classification. -/
def download_imageB (inferGet : List Nat → Option InferKind)
    (fetchRes : Except Nat (List Nat)) (stem : String)
    (createRes : Except Nat Unit) (writeRes : Except Nat Unit) :
    Except DownloadError (String × String) × Bool :=
  match fetchRes with
  | .error c => (.error (.network c), false)
  | .ok buf =>
    match classifyB inferGet buf with
    | .error e => (.error e, false)
    | .ok ext =>
      match createRes with
      | .error c => (.error (.fs c), false)
      | .ok _ =>
        match writeRes with
        | .error c => (.error (.fs c), true)
        | .ok _ => (.ok (stem, ext), true)

/-- Decimal digit to character, modelling the rendering used by Rust's
`usize::to_string`. -/
def digitToChar : Nat → Char
  | 0 => '0'
  | 1 => '1'
  | 2 => '2'
  | 3 => '3'
  | 4 => '4'
  | 5 => '5'
  | 6 => '6'
  | 7 => '7'
  | 8 => '8'
  | 9 => '9'
  | _ => '*'

/-- Little-endian decimal digits of `n`, with explicit fuel (`fuel ≥ n`
suffices). -/
def decDigits (fuel : Nat) (n : Nat) : List Nat :=
  match fuel with
  | 0 => []
  | f + 1 => if n = 0 then [] else n % 10 :: decDigits f (n / 10)

/-- Model of `usize::to_string`: decimal rendering of a natural number. -/
def natStr (n : Nat) : String :=
  if n = 0 then "0" else ⟨((decDigits n n).reverse.map digitToChar)⟩

/-- The stem built by `download` for suffix `k`:
`args.query.to_owned() + &suffix.to_string()` (src/lib.rs line 603). The
directory prefix is common to all stems and omitted. -/
def stemName (base : String) (k : Nat) : String := base ++ natStr k

/-- The inner probe loop of path reservation (src/lib.rs lines 605-619): probe
suffix `k`; while some file on disk matches `stem.*` (the oracle `occupied`),
advance the suffix; return the first free suffix. `fuel` bounds the probing
(the Rust loop runs unboundedly; it terminates because a real directory is
finite). -/
def firstFree (occupied : String → Bool) (base : String) :
    Nat → Nat → Option Nat
  | 0, _ => none
  | fuel + 1, k =>
    if occupied (stemName base k) then firstFree occupied base fuel (k + 1)
    else some k

/-- The reservation loop of `download` (src/lib.rs lines 600-623): starting
from suffix 0, reserve `n` suffixes; each reservation takes the first free
suffix at or after the current counter and then advances the counter past it
(`suffix += 1` after the push). -/
def reserveAux (occupied : String → Bool) (base : String) (fuel : Nat) :
    Nat → Nat → Option (List Nat)
  | 0, _ => some []
  | n + 1, k =>
    match firstFree occupied base fuel k with
    | none => none
    | some t =>
      match reserveAux occupied base fuel n (t + 1) with
      | none => none
      | some rest => some (t :: rest)

/-- Path reservation: `n` stems for base name `base`, given the
reservation-time disk state `occupied` (true when some file matches
`stem.*`). -/
def reserve (occupied : String → Bool) (base : String) (n fuel : Nat) :
    Option (List String) :=
  (reserveAux occupied base fuel n 0).map (List.map (stemName base))

/-- Status of one fetch task of the download orchestrator: still looping,
finished with a classified extension, or terminated by pool exhaustion
(`DownloadError::Overflow`). -/
inductive TStatus where
  | running : TStatus
  | done (ext : String) : TStatus
  | overflow : TStatus
deriving DecidableEq

/-- One fetch task of `download_n`: its reserved path stem and its status. -/
structure DlTask where
  stem : String
  status : TStatus
deriving DecidableEq

/-- Shared state of the concurrent download phase: the candidate pool (the
`Arc<Mutex<Vec<String>>>` of `download_n`), the task list, and a log of
deliveries (task index, url) recording each atomic pop. -/
structure DlState where
  pool : List String
  tasks : List DlTask
  log : List (Nat × String)
deriving DecidableEq

/-- Initial state of `download_n` (src/lib.rs lines 631-656): the full pool,
one running task per reserved stem, empty delivery log. -/
def initState (pool stems : List String) : DlState :=
  ⟨pool, stems.map (fun st => ⟨st, .running⟩), []⟩

/-- Whether a task has finished successfully. -/
def isDone (t : DlTask) : Bool :=
  match t.status with
  | .done _ => true
  | _ => false

/-- Number of finished tasks. -/
def doneCount (s : DlState) : Nat := s.tasks.countP isDone

/-- The path a finished task contributed, if any. -/
def taskResult (t : DlTask) : Option (String × String) :=
  match t.status with
  | .done ext => some (t.stem, ext)
  | _ => none

/-- The list of written paths `download_n` returns:
`join_all(...).filter_map(|x| x.ok())` (src/lib.rs lines 649-653), each path
modelled as (stem, extension). -/
def results (s : DlState) : List (String × String) :=
  s.tasks.filterMap taskResult

/-- A state where every task has terminated (success or overflow): the point
at which `join_all` returns. -/
def Terminal (s : DlState) : Prop := ∀ t ∈ s.tasks, t.status ≠ .running

/-- One interleaving step of the concurrent phase, for a fixed attempt oracle
`att` (task index and url to the outcome of fetch + classify + write: `some
ext` on success). All pool access is the atomic check-and-pop of the
`next_available!` macro (src/lib.rs lines 658-669) under the single mutex:
`pop_overflow` is the empty-pool check (task ends with `Overflow`), `pop_ok`
pops the front and the subsequent attempt succeeds (task ends with a path),
`pop_fail` pops the front and the attempt fails (the task loops and the url is
discarded, never returned to the pool) — the `download_until` loop
(src/lib.rs lines 671-688). -/
inductive DlStep (att : Nat → String → Option String) :
    DlState → DlState → Prop where
  | pop_overflow {s : DlState} (i : Nat) (t : DlTask)
      (ht : s.tasks[i]? = some t) (hr : t.status = .running)
      (hp : s.pool = []) :
      DlStep att s ⟨s.pool, s.tasks.set i ⟨t.stem, .overflow⟩, s.log⟩
  | pop_ok {s : DlState} (i : Nat) (t : DlTask) (u : String)
      (rest : List String) (ext : String)
      (ht : s.tasks[i]? = some t) (hr : t.status = .running)
      (hp : s.pool = u :: rest) (ha : att i u = some ext) :
      DlStep att s ⟨rest, s.tasks.set i ⟨t.stem, .done ext⟩, s.log ++ [(i, u)]⟩
  | pop_fail {s : DlState} (i : Nat) (t : DlTask) (u : String)
      (rest : List String)
      (ht : s.tasks[i]? = some t) (hr : t.status = .running)
      (hp : s.pool = u :: rest) (ha : att i u = none) :
      DlStep att s ⟨rest, s.tasks, s.log ++ [(i, u)]⟩

/-- Reachability under interleavings of the concurrent phase. -/
inductive Reaches (att : Nat → String → Option String) :
    DlState → DlState → Prop where
  | refl (s : DlState) : Reaches att s s
  | tail {s₁ s₂ s₃ : DlState} (h : Reaches att s₁ s₂)
      (hs : DlStep att s₂ s₃) : Reaches att s₁ s₃

/-- A well-formed per-image entry carrying the given field values, shaped
exactly as the inner navigation chain of `unpack` expects: the url, height and
width triple at `inner[3]` (stored as `[url, height, width]`), the thumbnail
at `inner[2][0]`, and the source at `inner[22]["2003"][2]`. -/
def mkEntry (u : String) (w h : Int) (t s : String) : Json :=
  Json.arr [Json.arr [Json.obj [("444383007",
    Json.arr [Json.null,
      Json.arr ([Json.null, Json.null,
        Json.arr [Json.str t],
        Json.arr [Json.str u, Json.num h, Json.num w]] ++
        List.replicate 18 Json.null ++
        [Json.obj [("2003",
          Json.arr [Json.null, Json.null, Json.str s])]])])]]]

/-- A document value whose outer path resolves to the given entry list:
the entries sit exactly where the outer chain of `unpack` looks for them. -/
def wrapOuter (entries : List Json) : Json :=
  Json.arr (List.replicate 56 Json.null ++
    [Json.arr [Json.null, Json.arr [Json.arr [Json.arr [Json.null,
      Json.arr [Json.arr entries]]]]]])

/-- Model of the asynchronous `download` (src/lib.rs lines 577-628) after the
reservation phase: propagate a `urls` failure, turn a directory
creation/lookup failure into `Dir`, and otherwise return exactly the slot
outcomes that are `Ok` (`download_n`'s `filter_map(|x| x.ok())`); `outcomes`
stands for the joined per-slot results of the concurrent phase. -/
def downloadA (urlsRes : Except PubError (List String))
    (dirRes : Except Nat Unit)
    (outcomes : List (Except DownloadError (String × String))) :
    Except PubError (List (String × String)) :=
  match urlsRes with
  | .error e => .error e
  | .ok _ =>
    match dirRes with
    | .error c => .error (.dir c)
    | .ok _ => .ok (outcomes.filterMap Except.toOption)

/-- Model of the blocking `download` (src/blocking/mod.rs lines 153-207):
identical, except that between directory creation and the concurrent phase it
creates a tokio runtime, and a failure there surfaces as the `Runtime` error. -/
def downloadB (urlsRes : Except BlockingError (List String))
    (dirRes : Except Nat Unit) (rtRes : Except Nat Unit)
    (outcomes : List (Except DownloadError (String × String))) :
    Except BlockingError (List (String × String)) :=
  match urlsRes with
  | .error e => .error e
  | .ok _ =>
    match dirRes with
    | .error c => .error (.dir c)
    | .ok _ =>
      match rtRes with
      | .error c => .error (.runtime c)
      | .ok _ => .ok (outcomes.filterMap Except.toOption)

/-- Value of a little-endian decimal digit list. -/
def decVal (ds : List Nat) : Nat := ds.foldr (fun d acc => d + 10 * acc) 0

/-- Invariant of the concurrent phase under an always-successful attempt
oracle: the pool is the original pool minus one front element per finished
task, the delivery log records exactly the consumed prefix, the stems are
unchanged, and no task has overflowed. -/
def GoodInv (pool stems : List String) (s : DlState) : Prop :=
  s.pool = pool.drop (doneCount s) ∧
  s.log.map Prod.snd = pool.take (doneCount s) ∧
  s.log.length = doneCount s ∧
  s.tasks.map DlTask.stem = stems ∧
  ∀ t ∈ s.tasks, t.status ≠ .overflow

/-- Attempt oracle for the concrete interleaving used in witnesses: every url
fetches successfully and classifies as png. -/
def attOK : Nat → String → Option String := fun _ _ => some "png"

/-- Concrete candidate pool for the witness interleaving. -/
def poolW : List String := ["u", "v", "w"]

/-- Concrete reserved stems for the witness interleaving. -/
def stemsW : List String := ["a", "b"]

/-- State after the first task pops and succeeds on url `u`. -/
def stateW1 : DlState :=
  ⟨["v", "w"], [⟨"a", .done "png"⟩, ⟨"b", .running⟩], [(0, "u")]⟩

/-- State after the second task also pops and succeeds on url `v`. -/
def stateW2 : DlState :=
  ⟨["w"], [⟨"a", .done "png"⟩, ⟨"b", .done "png"⟩], [(0, "u"), (1, "v")]⟩

theorem decDigits_lt10 : ∀ (fuel n : Nat), ∀ d ∈ decDigits fuel n, d < 10 := by
  intro fuel
  induction fuel with
  | zero => intro n d hd; simp [decDigits] at hd
  | succ f ih =>
    intro n d hd
    by_cases h0 : n = 0
    · simp [decDigits, h0] at hd
    · rw [decDigits, if_neg h0] at hd
      rcases List.mem_cons.mp hd with h | h
      · omega
      · exact ih _ d h

theorem decDigits_val : ∀ (fuel n : Nat), n ≤ fuel →
    decVal (decDigits fuel n) = n := by
  intro fuel
  induction fuel with
  | zero =>
    intro n h
    have : n = 0 := by omega
    simp [this, decDigits, decVal]
  | succ f ih =>
    intro n h
    by_cases h0 : n = 0
    · simp [decDigits, h0, decVal]
    · have hdiv : n / 10 ≤ f := by
        have := Nat.div_lt_self (Nat.pos_of_ne_zero h0) (by norm_num : 1 < 10)
        omega
      rw [decDigits, if_neg h0]
      show n % 10 + 10 * decVal (decDigits f (n / 10)) = n
      rw [ih _ hdiv]
      omega

theorem digitToChar_inj (d e : Nat) (hd : d < 10) (he : e < 10)
    (h : digitToChar d = digitToChar e) : d = e := by
  interval_cases d <;> interval_cases e <;> revert h <;> decide

theorem map_digitToChar_inj : ∀ (ds es : List Nat), (∀ d ∈ ds, d < 10) →
    (∀ e ∈ es, e < 10) → ds.map digitToChar = es.map digitToChar → ds = es := by
  intro ds
  induction ds with
  | nil =>
    intro es _ _ h
    cases es with
    | nil => rfl
    | cons e es => simp at h
  | cons d ds ih =>
    intro es hds hes h
    cases es with
    | nil => simp at h
    | cons e es =>
      simp only [List.map_cons, List.cons.injEq] at h
      have hde := digitToChar_inj d e (hds d (by simp)) (hes e (by simp)) h.1
      have htl := ih es (fun x hx => hds x (by simp [hx]))
        (fun x hx => hes x (by simp [hx])) h.2
      rw [hde, htl]

theorem natStr_inj (m n : Nat) (h : natStr m = natStr n) : m = n := by
  have hdata := congrArg String.data h
  by_cases hm : m = 0 <;> by_cases hn : n = 0
  · rw [hm, hn]
  · exfalso
    rw [natStr, natStr, if_pos hm, if_neg hn] at hdata
    have h0 : "0".data = ['0'] := rfl
    rw [h0] at hdata
    have hlen : (decDigits n n).length = 1 := by
      have := congrArg List.length hdata
      simpa using this.symm
    obtain ⟨d, hd⟩ := List.length_eq_one.mp hlen
    rw [hd] at hdata
    have hchar : digitToChar d = '0' := by simpa using hdata.symm
    have hd10 : d < 10 := decDigits_lt10 n n d (by rw [hd]; simp)
    have hd0 : d = 0 := digitToChar_inj d 0 hd10 (by norm_num) hchar
    have hv := decDigits_val n n (le_refl n)
    rw [hd, hd0] at hv
    simp [decVal] at hv
    exact hn hv.symm
  · exfalso
    rw [natStr, natStr, if_neg hm, if_pos hn] at hdata
    have h0 : "0".data = ['0'] := rfl
    rw [h0] at hdata
    have hlen : (decDigits m m).length = 1 := by
      have := congrArg List.length hdata
      simpa using this
    obtain ⟨d, hd⟩ := List.length_eq_one.mp hlen
    rw [hd] at hdata
    have hchar : digitToChar d = '0' := by simpa using hdata
    have hd10 : d < 10 := decDigits_lt10 m m d (by rw [hd]; simp)
    have hd0 : d = 0 := digitToChar_inj d 0 hd10 (by norm_num) hchar
    have hv := decDigits_val m m (le_refl m)
    rw [hd, hd0] at hv
    simp [decVal] at hv
    exact hm hv.symm
  · rw [natStr, natStr, if_neg hm, if_neg hn] at hdata
    have hmaps : (decDigits m m).reverse.map digitToChar =
        (decDigits n n).reverse.map digitToChar := hdata
    have hrev : (decDigits m m).reverse = (decDigits n n).reverse :=
      map_digitToChar_inj _ _
        (fun d hd => decDigits_lt10 m m d (List.mem_reverse.mp hd))
        (fun d hd => decDigits_lt10 n n d (List.mem_reverse.mp hd)) hmaps
    have hds : decDigits m m = decDigits n n := by
      have := congrArg List.reverse hrev
      simpa using this
    have hvm := decDigits_val m m (le_refl m)
    have hvn := decDigits_val n n (le_refl n)
    rw [hds] at hvm
    rw [hvn] at hvm
    exact hvm.symm

theorem stemName_inj (base : String) (k₁ k₂ : Nat)
    (h : stemName base k₁ = stemName base k₂) : k₁ = k₂ := by
  apply natStr_inj
  have hd := congrArg String.data h
  simp only [stemName, String.data_append] at hd
  exact String.ext (List.append_cancel_left hd)

theorem firstFree_spec (occupied : String → Bool) (base : String) :
    ∀ (fuel k t : Nat), firstFree occupied base fuel k = some t →
      occupied (stemName base t) = false ∧ k ≤ t := by
  intro fuel
  induction fuel with
  | zero => intro k t h; simp [firstFree] at h
  | succ f ih =>
    intro k t h
    rw [firstFree] at h
    cases ho : occupied (stemName base k) with
    | true =>
      rw [ho] at h
      simp only [if_pos] at h
      obtain ⟨h1, h2⟩ := ih (k + 1) t h
      exact ⟨h1, by omega⟩
    | false =>
      rw [ho] at h
      simp only [Bool.false_eq_true, if_false] at h
      injection h with h
      subst h
      exact ⟨ho, le_refl k⟩

theorem reserveAux_spec (occupied : String → Bool) (base : String)
    (fuel : Nat) : ∀ (n k : Nat) (ts : List Nat),
    reserveAux occupied base fuel n k = some ts →
      (∀ x ∈ ts, k ≤ x ∧ occupied (stemName base x) = false) ∧
      ts.Pairwise (· < ·) := by
  intro n
  induction n with
  | zero =>
    intro k ts h
    rw [reserveAux] at h
    injection h with h
    subst h
    simp
  | succ m ih =>
    intro k ts h
    rw [reserveAux] at h
    split at h
    · simp at h
    · rename_i t hf
      split at h
      · simp at h
      · rename_i rest hr
        injection h with h
        subst h
        obtain ⟨hocc, hkt⟩ := firstFree_spec occupied base fuel k t hf
        obtain ⟨hlb, hpw⟩ := ih (t + 1) rest hr
        constructor
        · intro x hx
          rcases List.mem_cons.mp hx with hx | hx
          · subst hx; exact ⟨hkt, hocc⟩
          · obtain ⟨h1, h2⟩ := hlb x hx
            exact ⟨by omega, h2⟩
        · refine List.Pairwise.cons ?_ hpw
          intro x hx
          have := (hlb x hx).1
          omega

/-- C7: for every reservation-time directory state, base name and count,
path reservation produces pairwise-distinct stems none of which matches an
existing file (`occupied` is false on each); the continuation rule is the
deterministic function `reserve`, which on an empty directory with base
`cat` and count 3 yields `cat0`, `cat1`, `cat2`, and with `cat1` occupied
deterministically skips suffix 1, yielding `cat0`, `cat2`, `cat3`. -/
theorem c7_reservation (occupied : String → Bool) (base : String)
    (n fuel : Nat) (stems : List String)
    (h : reserve occupied base n fuel = some stems) :
    stems.Nodup ∧ stems.all (fun st => !occupied st) = true ∧
    reserve (fun _ => false) "cat" 3 1 = some ["cat0", "cat1", "cat2"] ∧
    reserve (fun st => st == "cat1") "cat" 3 2 =
      some ["cat0", "cat2", "cat3"] := by
  obtain ⟨ts, hts, hmap⟩ : ∃ ts, reserveAux occupied base fuel n 0 = some ts ∧
      stems = ts.map (stemName base) := by
    rw [reserve] at h
    cases hr : reserveAux occupied base fuel n 0 with
    | none => rw [hr] at h; simp at h
    | some ts =>
      rw [hr] at h
      refine ⟨ts, rfl, ?_⟩
      simpa using h.symm
  obtain ⟨hlb, hpw⟩ := reserveAux_spec occupied base fuel n 0 ts hts
  refine ⟨?_, ?_, by decide, by decide⟩
  · rw [hmap]
    refine List.Nodup.map (fun a b hab => stemName_inj base a b hab) ?_
    exact hpw.imp (fun hlt => Nat.ne_of_lt hlt)
  · rw [hmap]
    refine List.all_eq_true.mpr ?_
    intro st hst
    obtain ⟨x, hx, hxeq⟩ := List.mem_map.mp hst
    rw [← hxeq]
    have := (hlb x hx).2
    simp [this]

/-- C7 (witness): the reservation theorem applied to a concrete empty
directory with base `x` and count 2. -/
theorem c7_reservation_witness :
    (["x0", "x1"] : List String).Nodup ∧
    (["x0", "x1"] : List String).all (fun st => !(fun _ => false) st) = true ∧
    reserve (fun _ => false) "cat" 3 1 = some ["cat0", "cat1", "cat2"] ∧
    reserve (fun st => st == "cat1") "cat" 3 2 =
      some ["cat0", "cat2", "cat3"] :=
  c7_reservation (fun _ => false) "x" 2 1 ["x0", "x1"] (by decide)

/-- C1 (counterexample): the claim that a failing navigation step of an
entry's inner chain — wrong type, missing index or key — skips only that
entry is false at a concrete input. In the document
`wrapOuter [Json.arr [], goodEntry]` the outer path resolves, the second
entry is well formed (its navigation yields an image), and the first entry
fails with a missing index (`obj.as_array()` succeeds on the empty array and
the subsequent `[0]` is out of bounds); extraction panics and the well-formed
sibling does not appear in any output sequence. -/
theorem c1_counterexample :
    outerNav (wrapOuter [Json.arr [], mkEntry "u" 2 3 "t" "s"]) =
      Ext.found [Json.arr [], mkEntry "u" 2 3 "t" "s"] ∧
    entryNav (mkEntry "u" 2 3 "t" "s") = Ext.found ⟨"u", 2, 3, "t", "s"⟩ ∧
    unpackNav (wrapOuter [Json.arr [], mkEntry "u" 2 3 "t" "s"]) = Ext.panic :=
  ⟨rfl, by decide, by decide⟩

/-- C1 (amended): when a navigation step of an entry's inner fixed chain
fails because a value has the wrong type, only that entry is skipped and all
sibling entries still appear in the output sequence; but when a step fails
because an array index is out of bounds or an object key is missing, the
whole extraction aborts (panics) and no output sequence is produced. -/
theorem c1_wrong_type_skips_missing_index_panics :
    (∀ (l₁ l₂ : List Json) (e : Json), entryNav e = .fail →
      processEntries (l₁ ++ e :: l₂) = processEntries (l₁ ++ l₂)) ∧
    (∀ (l₁ l₂ : List Json) (e : Json), entryNav e = .panic →
      processEntries (l₁ ++ e :: l₂) = none) := by
  constructor
  · intro l₁ l₂ e he
    induction l₁ with
    | nil => simp [processEntries, he]
    | cons a as ih =>
      simp only [List.cons_append]
      cases ha : entryNav a <;> simp [processEntries, ha, ih]
  · intro l₁ l₂ e he
    induction l₁ with
    | nil => simp [processEntries, he]
    | cons a as ih =>
      simp only [List.cons_append]
      cases ha : entryNav a <;> simp [processEntries, ha, ih]

/-- C1 (witness): the amended theorem applied at concrete entries: a
wrong-typed entry (a JSON string, where `as_array` fails) is skipped with its
sibling intact, and an entry with a missing index (the empty array) panics
the loop. -/
theorem c1_wrong_type_skips_witness :
    processEntries [mkEntry "u" 2 3 "t" "s", Json.str "x"] =
      processEntries [mkEntry "u" 2 3 "t" "s"] ∧
    processEntries [Json.arr [], mkEntry "u" 2 3 "t" "s"] = none :=
  ⟨c1_wrong_type_skips_missing_index_panics.1 [mkEntry "u" 2 3 "t" "s"] []
      (Json.str "x") (by decide),
    c1_wrong_type_skips_missing_index_panics.2 [] [mkEntry "u" 2 3 "t" "s"]
      (Json.arr []) (by decide)⟩

/-- C4 (counterexample): the claim that the content classifier returns `svg`
for every buffer whose first 1024 bytes decode to text containing `<svg` is
false for the asynchronous variant: on the concrete buffer consisting of the
ASCII bytes of `<svg`, with a signature oracle that reports a PNG image
signature, the asynchronous classifier returns `png` while the blocking one
returns `svg`. -/
theorem c4_counterexample :
    svgSniff svgPat = true ∧
    classifyA (fun _ => some ⟨.image, "png"⟩) svgPat = .ok "png" ∧
    classifyB (fun _ => some ⟨.image, "png"⟩) svgPat = .ok "svg" ∧
    "png" ≠ "svg" := by decide

/-- C4 (amended): for every downloaded byte buffer whose prefix of at most
the first 1024 bytes decodes as UTF-8 text containing the literal substring
`<svg`, the blocking content classifier returns extension `svg`
unconditionally, skipping binary signature sniffing regardless of what the
signature oracle would say; the asynchronous classifier has no svg sniff and
uses binary signatures only. -/
theorem c4_blocking_svg_unconditional (inferGet : List Nat → Option InferKind)
    (buf : List Nat) (h1 : validUtf8 (buf.take 1024) = true)
    (h2 : hasSubNat svgPat (buf.take 1024) = true) :
    classifyB inferGet buf = .ok "svg" := by
  simp [classifyB, svgSniff, h1, h2]

/-- C4 (witness): the blocking classifier on the `<svg` bytes themselves,
with a signature oracle that matches nothing. -/
theorem c4_blocking_svg_witness :
    validUtf8 (svgPat.take 1024) = true ∧
    hasSubNat svgPat (svgPat.take 1024) = true ∧
    classifyB (fun _ => none) svgPat = .ok "svg" :=
  ⟨by decide, by decide,
    c4_blocking_svg_unconditional (fun _ => none) svgPat (by decide) (by decide)⟩

/-- C5: for every byte buffer whose classification reaches binary sniffing,
if no magic-byte signature matches or the matched signature's category is not
image, classification fails with the `Extension` error and no file is written
for that attempt (the `File::create` call is never reached). The asynchronous
variant always reaches binary sniffing; the blocking one reaches it whenever
the svg sniff misses. -/
theorem c5_nonimage_signature_extension (inferGet : List Nat → Option InferKind)
    (buf : List Nat) (stem : String) (createRes writeRes : Except Nat Unit)
    (hbin : ∀ k, inferGet buf = some k → k.mtype ≠ .image) :
    download_imageA inferGet (.ok buf) stem createRes writeRes =
      (.error .extension, false) ∧
    (svgSniff buf = false →
      download_imageB inferGet (.ok buf) stem createRes writeRes =
        (.error .extension, false)) := by
  constructor
  · cases hk : inferGet buf with
    | none => simp [download_imageA, classifyA, hk]
    | some k => simp [download_imageA, classifyA, hk, hbin k hk]
  · intro hsvg
    cases hk : inferGet buf with
    | none => simp [download_imageB, classifyB, hsvg, hk]
    | some k => simp [download_imageB, classifyB, hsvg, hk, hbin k hk]

/-- C5 (witness): a ZIP archive header (`PK\x03\x04`), whose signature
category is archive, fails classification with `Extension` in both variants
and writes no file. -/
theorem c5_nonimage_signature_witness :
    download_imageA (fun _ => some ⟨.archive, "zip"⟩) (.ok [80, 75, 3, 4])
      "cat0" (.ok ()) (.ok ()) = (.error .extension, false) ∧
    download_imageB (fun _ => some ⟨.archive, "zip"⟩) (.ok [80, 75, 3, 4])
      "cat0" (.ok ()) (.ok ()) = (.error .extension, false) := by
  have h := c5_nonimage_signature_extension (fun _ => some ⟨.archive, "zip"⟩)
    [80, 75, 3, 4] "cat0" (.ok ()) (.ok ())
    (fun k hk => by injection hk with hh; rw [← hh]; decide)
  exact ⟨h.1, h.2 (by decide)⟩

/-- C6: for every input document in which the anchor token
`AF_initDataCallback` does not occur, `unpack` fails and `search` returns the
`Parse` error, producing no records. -/
theorem c6_missing_anchor_parse (parseJ : List Char → Option Json)
    (body : List Char) (limit : Nat)
    (h : hasSubChars anchorChars body = false) :
    unpack parseJ body = .fail ∧
    search limit (.ok body) parseJ = some (.error .parse) := by
  have hocc : occIdx anchorChars body = [] := by
    have hb : (occIdx anchorChars body).isEmpty = true := by
      simpa [hasSubChars] using h
    exact List.isEmpty_iff.mp hb
  have hr : strRFind anchorChars body = none := by
    simp [strRFind, hocc]
  refine ⟨?_, ?_⟩
  · simp [unpack, hr]
  · simp [search, unpack, hr]

/-- C6 (witness): the theorem applied to a concrete document with no anchor
token. -/
theorem c6_missing_anchor_witness :
    unpack (fun _ => none) "hello world".data = .fail ∧
    search 5 (.ok "hello world".data) (fun _ => none) =
      some (.error .parse) :=
  c6_missing_anchor_parse (fun _ => none) "hello world".data 5 (by decide)

/-- C8 (counterexample): the claim that the only caller-visible error kinds
of the download operation are Parse, Dir and Network is false for the
blocking variant: when tokio runtime creation fails, the blocking `download`
returns the `Runtime` error, a fourth caller-visible kind. -/
theorem c8_counterexample :
    downloadB (.ok []) (.ok ()) (.error 0) [] = .error (.runtime 0) ∧
    isPDN (.runtime 0) = false := by decide

/-- C8 (amended): the asynchronous `download` surfaces only Parse, Dir and
Network errors, the blocking `download` additionally may surface Runtime
(tokio runtime creation failure); the internal per-attempt kinds (Overflow,
Extension, Fs, per-attempt Network) are never surfaced individually: on
success the returned list is exactly the `Ok` slot outcomes, so each internal
failure only removes its slot's path from the result. -/
theorem c8_error_kinds :
    (∀ (urlsRes : Except PubError (List String)) (dirRes : Except Nat Unit)
        (outcomes : List (Except DownloadError (String × String)))
        (r : List (String × String)),
      downloadA urlsRes dirRes outcomes = .ok r →
        r = outcomes.filterMap Except.toOption) ∧
    (∀ (urlsRes : Except PubError (List String)) (dirRes : Except Nat Unit)
        (outcomes : List (Except DownloadError (String × String)))
        (e : PubError),
      downloadA urlsRes dirRes outcomes = .error e →
        e = .parse ∨ (∃ c, e = .dir c) ∨ (∃ c, e = .network c)) ∧
    (∀ (urlsRes : Except BlockingError (List String))
        (dirRes rtRes : Except Nat Unit)
        (outcomes : List (Except DownloadError (String × String)))
        (r : List (String × String)),
      downloadB urlsRes dirRes rtRes outcomes = .ok r →
        r = outcomes.filterMap Except.toOption) ∧
    (∀ (urlsRes : Except BlockingError (List String))
        (dirRes rtRes : Except Nat Unit)
        (outcomes : List (Except DownloadError (String × String)))
        (e : BlockingError),
      downloadB urlsRes dirRes rtRes outcomes = .error e →
        isPDN e = true ∨ (∃ c, e = .runtime c)) := by
  refine ⟨?_, ?_, ?_, ?_⟩
  · intro urlsRes dirRes outcomes r hok
    cases urlsRes <;> cases dirRes <;> simp_all [downloadA]
  · intro urlsRes dirRes outcomes e herr
    cases e with
    | parse => exact Or.inl rfl
    | dir c => exact Or.inr (Or.inl ⟨c, rfl⟩)
    | network c => exact Or.inr (Or.inr ⟨c, rfl⟩)
  · intro urlsRes dirRes rtRes outcomes r hok
    cases urlsRes <;> cases dirRes <;> cases rtRes <;> simp_all [downloadB]
  · intro urlsRes dirRes rtRes outcomes e herr
    cases e with
    | parse => exact Or.inl rfl
    | dir c => exact Or.inl rfl
    | network c => exact Or.inl rfl
    | runtime c => exact Or.inr ⟨c, rfl⟩

/-- C8 (witness): the amended theorem applied to concrete runs: a slot that
failed with the internal Overflow (or Extension) outcome contributes no path
and is not surfaced, in both variants. -/
theorem c8_error_kinds_witness :
    ([("cat0", "png")] : List (String × String)) =
      [Except.ok ("cat0", "png"),
        Except.error DownloadError.overflow].filterMap Except.toOption ∧
    ([("cat0", "png")] : List (String × String)) =
      [Except.ok ("cat0", "png"),
        Except.error DownloadError.extension].filterMap Except.toOption :=
  ⟨c8_error_kinds.1 (.ok []) (.ok ())
      [Except.ok ("cat0", "png"), Except.error DownloadError.overflow] _
      (by decide),
    c8_error_kinds.2.2.1 (.ok []) (.ok ()) (.ok ())
      [Except.ok ("cat0", "png"), Except.error DownloadError.extension] _
      (by decide)⟩

/-- C9 (counterexample): the claim that every extracted record has non-empty
url/thumbnail/source and positive width/height is false: a document entry
carrying an empty url, width 0 and height -3 navigates successfully and its
record is produced unchanged. -/
theorem c9_counterexample :
    unpackNav (wrapOuter [mkEntry "" 0 (-3) "" ""]) =
      Ext.found [⟨"", 0, -3, "", ""⟩] ∧
    (Image.mk "" 0 (-3) "" "").url = "" ∧
    (Image.mk "" 0 (-3) "" "").width = 0 :=
  ⟨by decide, rfl, rfl⟩

/-- C9 (amended): extraction copies the fields exactly as they appear in the
document — the url, thumbnail and source are whatever strings the entry
carries (possibly empty) and width and height are whatever `i64` values it
carries (possibly non-positive); no non-emptiness or positivity is enforced. -/
theorem c9_fields_exact (u : String) (w h : Int) (t s : String) :
    entryNav (mkEntry u w h t s) = Ext.found ⟨u, w, h, t, s⟩ := rfl

/-- C10: for every argument limit and extracted sequence, when the limit is
positive and extraction yields more records than the limit, `search` returns
exactly the first `limit` records in order; when the limit is 0 or extraction
yields at most `limit` records, `search` returns the entire sequence
unchanged. -/
theorem c10_limit_truncation (limit : Nat) (body : List Char)
    (parseJ : List Char → Option Json) (imgs : List Image)
    (h : unpack parseJ body = .found imgs) :
    (0 < limit → limit < imgs.length →
      search limit (.ok body) parseJ = some (.ok (imgs.take limit))) ∧
    (limit = 0 ∨ imgs.length ≤ limit →
      search limit (.ok body) parseJ = some (.ok imgs)) := by
  constructor
  · intro h1 h2
    simp only [search, h]
    rw [if_pos ⟨h2, h1⟩]
  · intro hor
    simp only [search, h]
    rw [if_neg]
    rintro ⟨hgt, hpos⟩
    rcases hor with h0 | hle
    · omega
    · omega

/-- C10 (witness): with a two-record document, limit 1 truncates to the first
record in order and limit 0 returns both records unchanged. -/
theorem c10_limit_truncation_witness :
    search 1 (.ok "AF_initDataCallback[1,2]</script>".data)
      (fun _ => some (wrapOuter [mkEntry "a" 1 1 "b" "c", mkEntry "d" 2 2 "e" "f"])) =
      some (.ok [⟨"a", 1, 1, "b", "c"⟩]) ∧
    search 0 (.ok "AF_initDataCallback[1,2]</script>".data)
      (fun _ => some (wrapOuter [mkEntry "a" 1 1 "b" "c", mkEntry "d" 2 2 "e" "f"])) =
      some (.ok [⟨"a", 1, 1, "b", "c"⟩, ⟨"d", 2, 2, "e", "f"⟩]) := by
  have h1 := (c10_limit_truncation 1 "AF_initDataCallback[1,2]</script>".data
    (fun _ => some (wrapOuter [mkEntry "a" 1 1 "b" "c", mkEntry "d" 2 2 "e" "f"]))
    [⟨"a", 1, 1, "b", "c"⟩, ⟨"d", 2, 2, "e", "f"⟩] (by decide)).1
    (by decide) (by decide)
  have h2 := (c10_limit_truncation 0 "AF_initDataCallback[1,2]</script>".data
    (fun _ => some (wrapOuter [mkEntry "a" 1 1 "b" "c", mkEntry "d" 2 2 "e" "f"]))
    [⟨"a", 1, 1, "b", "c"⟩, ⟨"d", 2, 2, "e", "f"⟩] (by decide)).2
    (Or.inl rfl)
  exact ⟨h1, h2⟩

theorem dlStep_pool_shape {att : Nat → String → Option String}
    {s s' : DlState} (h : DlStep att s s') :
    s'.pool = s.pool ∨ s'.pool = s.pool.tail := by
  cases h with
  | pop_overflow i t ht hr hp => exact Or.inl rfl
  | pop_ok i t u rest ext ht hr hp ha => right; simp [hp]
  | pop_fail i t u rest ht hr hp ha => right; simp [hp]

theorem dlStep_tasks_len {att : Nat → String → Option String}
    {s s' : DlState} (h : DlStep att s s') :
    s'.tasks.length = s.tasks.length := by
  cases h with
  | pop_overflow i t ht hr hp => simp
  | pop_ok i t u rest ext ht hr hp ha => simp
  | pop_fail i t u rest ht hr hp ha => rfl

theorem reaches_tasks_len {att : Nat → String → Option String}
    {s₀ s : DlState} (h : Reaches att s₀ s) :
    s.tasks.length = s₀.tasks.length := by
  induction h with
  | refl => rfl
  | tail h hs ih => rw [dlStep_tasks_len hs, ih]

theorem reaches_pool_log {att : Nat → String → Option String}
    {pool stems : List String} {s : DlState}
    (h : Reaches att (initState pool stems) s) :
    ∃ k, s.pool = pool.drop k ∧ s.log.map Prod.snd = pool.take k := by
  induction h with
  | refl => exact ⟨0, by simp [initState]⟩
  | tail h hs ih =>
    obtain ⟨k, hp, hl⟩ := ih
    cases hs with
    | pop_overflow i t ht hr hpe => exact ⟨k, hp, hl⟩
    | pop_ok i t u rest ext ht hr hpe ha =>
      have hdk : pool.drop k = u :: rest := by rw [← hp, hpe]
      have hu : pool[k]? = some u := by
        have h0 : (pool.drop k)[0]? = some u := by rw [hdk]; simp
        rw [List.getElem?_drop] at h0
        simpa using h0
      refine ⟨k + 1, ?_, ?_⟩
      · show rest = pool.drop (k + 1)
        rw [← List.tail_drop, hdk, List.tail_cons]
      · show (_ ++ [(i, u)]).map Prod.snd = pool.take (k + 1)
        rw [List.map_append, hl, List.take_succ, hu]
        rfl
    | pop_fail i t u rest ht hr hpe ha =>
      have hdk : pool.drop k = u :: rest := by rw [← hp, hpe]
      have hu : pool[k]? = some u := by
        have h0 : (pool.drop k)[0]? = some u := by rw [hdk]; simp
        rw [List.getElem?_drop] at h0
        simpa using h0
      refine ⟨k + 1, ?_, ?_⟩
      · show rest = pool.drop (k + 1)
        rw [← List.tail_drop, hdk, List.tail_cons]
      · show (_ ++ [(i, u)]).map Prod.snd = pool.take (k + 1)
        rw [List.map_append, hl, List.take_succ, hu]
        rfl

theorem countP_set_incr {α : Type} (p : α → Bool) :
    ∀ (l : List α) (i : Nat) (a b : α), l[i]? = some a → p a = false →
      p b = true → (l.set i b).countP p = l.countP p + 1 := by
  intro l
  induction l with
  | nil => intro i a b h; simp at h
  | cons hd tl ih =>
    intro i a b h hpa hpb
    cases i with
    | zero =>
      simp only [List.getElem?_cons_zero, Option.some.injEq] at h
      subst h
      simp [List.countP_cons, hpa, hpb]
    | succ j =>
      simp only [List.getElem?_cons_succ] at h
      by_cases hph : p hd <;>
        simp [List.countP_cons, hph, ih j a b h hpa hpb]

theorem map_set_eq {α β : Type} (f : α → β) :
    ∀ (l : List α) (i : Nat) (a b : α), l[i]? = some a → f b = f a →
      (l.set i b).map f = l.map f := by
  intro l
  induction l with
  | nil => intro i a b h _; simp at h
  | cons hd tl ih =>
    intro i a b h hf
    cases i with
    | zero =>
      simp only [List.getElem?_cons_zero, Option.some.injEq] at h
      subst h
      simp [hf]
    | succ j =>
      simp only [List.getElem?_cons_succ] at h
      simp [ih j a b h hf]

theorem goodInv_init (pool stems : List String) :
    GoodInv pool stems (initState pool stems) := by
  have hdc : doneCount (initState pool stems) = 0 := by
    rw [doneCount]
    refine List.countP_eq_zero.mpr ?_
    intro t htm
    obtain ⟨st, _, rfl⟩ := List.mem_map.mp htm
    simp [isDone]
  refine ⟨?_, ?_, ?_, ?_, ?_⟩
  · rw [hdc]; rfl
  · rw [hdc]; rfl
  · rw [hdc]; rfl
  · show (stems.map fun st => (⟨st, .running⟩ : DlTask)).map DlTask.stem = stems
    rw [List.map_map]
    exact List.map_id' stems
  · intro t htm
    obtain ⟨st, _, rfl⟩ := List.mem_map.mp (by simpa [initState] using htm)
    simp

theorem goodInv_step {att : Nat → String → Option String}
    {pool stems : List String} {s s' : DlState}
    (hvalid : ∀ i u, u ∈ pool → (att i u).isSome = true)
    (hM : stems.length ≤ pool.length)
    (hI : GoodInv pool stems s) (h : DlStep att s s') :
    GoodInv pool stems s' := by
  obtain ⟨hp, hl, hll, hst, hov⟩ := hI
  have htl : s.tasks.length = stems.length := by
    rw [← hst, List.length_map]
  cases h with
  | pop_overflow i t ht hr hpe =>
    exfalso
    have hmem : t ∈ s.tasks := List.getElem?_mem ht
    have hdc_lt : doneCount s < s.tasks.length := by
      rcases Nat.lt_or_ge (doneCount s) s.tasks.length with hlt | hge
      · exact hlt
      · exfalso
        have heq : s.tasks.countP isDone = s.tasks.length :=
          le_antisymm (List.countP_le_length isDone) hge
        have hall := List.countP_eq_length.mp heq t hmem
        simp [isDone, hr] at hall
    have hnil : pool.drop (doneCount s) = [] := by rw [← hp, hpe]
    have hlen : pool.length ≤ doneCount s := List.drop_eq_nil_iff.mp hnil
    omega
  | pop_ok i t u rest ext ht hr hpe ha =>
    have hnd : isDone t = false := by simp [isDone, hr]
    have hdc : (s.tasks.set i ⟨t.stem, .done ext⟩).countP isDone =
        s.tasks.countP isDone + 1 :=
      countP_set_incr isDone s.tasks i t ⟨t.stem, .done ext⟩ ht hnd rfl
    have hdk : pool.drop (doneCount s) = u :: rest := by rw [← hp, hpe]
    have hu : pool[doneCount s]? = some u := by
      have h0 : (pool.drop (doneCount s))[0]? = some u := by rw [hdk]; simp
      rw [List.getElem?_drop] at h0
      simpa using h0
    refine ⟨?_, ?_, ?_, ?_, ?_⟩
    · show rest = pool.drop _
      rw [show doneCount ⟨rest, s.tasks.set i ⟨t.stem, .done ext⟩,
        s.log ++ [(i, u)]⟩ = doneCount s + 1 from hdc]
      rw [← List.tail_drop, hdk, List.tail_cons]
    · show (s.log ++ [(i, u)]).map Prod.snd = pool.take _
      rw [show doneCount ⟨rest, s.tasks.set i ⟨t.stem, .done ext⟩,
        s.log ++ [(i, u)]⟩ = doneCount s + 1 from hdc]
      rw [List.map_append, hl, List.take_succ, hu]
      rfl
    · show (s.log ++ [(i, u)]).length = _
      rw [show doneCount ⟨rest, s.tasks.set i ⟨t.stem, .done ext⟩,
        s.log ++ [(i, u)]⟩ = doneCount s + 1 from hdc]
      simp [hll]
    · show (s.tasks.set i ⟨t.stem, .done ext⟩).map DlTask.stem = stems
      rw [map_set_eq DlTask.stem s.tasks i t ⟨t.stem, .done ext⟩ ht rfl, hst]
    · intro t' ht'
      rcases List.mem_or_eq_of_mem_set ht' with hmem | heq
      · exact hov t' hmem
      · rw [heq]; simp
  | pop_fail i t u rest ht hr hpe ha =>
    exfalso
    have hdk : pool.drop (doneCount s) = u :: rest := by rw [← hp, hpe]
    have humem : u ∈ pool := by
      refine List.drop_subset (doneCount s) pool ?_
      rw [hdk]
      exact List.mem_cons_self u rest
    have hsome := hvalid i u humem
    rw [ha] at hsome
    simp at hsome

theorem goodInv_reaches {att : Nat → String → Option String}
    {pool stems : List String} {s : DlState}
    (hvalid : ∀ i u, u ∈ pool → (att i u).isSome = true)
    (hM : stems.length ≤ pool.length)
    (h : Reaches att (initState pool stems) s) : GoodInv pool stems s := by
  induction h with
  | refl => exact goodInv_init pool stems
  | tail h hs ih => exact goodInv_step hvalid hM ih hs

theorem results_all_done : ∀ (ts : List DlTask),
    (∀ t ∈ ts, isDone t = true) →
    (ts.filterMap taskResult).length = ts.length ∧
    (ts.filterMap taskResult).map Prod.fst = ts.map DlTask.stem := by
  intro ts
  induction ts with
  | nil => intro _; simp
  | cons t ts ih =>
    intro h
    have htd := h t (by simp)
    obtain ⟨ext, hext⟩ : ∃ ext, t.status = .done ext := by
      cases hs : t.status with
      | done e => exact ⟨e, rfl⟩
      | running => simp [isDone, hs] at htd
      | overflow => simp [isDone, hs] at htd
    have htr : taskResult t = some (t.stem, ext) := by rw [taskResult, hext]
    obtain ⟨ih1, ih2⟩ := ih (fun x hx => h x (by simp [hx]))
    constructor
    · simp [List.filterMap_cons, htr, ih1]
    · simp [List.filterMap_cons, htr, ih2]

/-- C2: for every pool, every requested count (the number of reserved stems)
and every interleaving, the orchestrator returns at most as many paths as
slots; and when every candidate in a pool of size at least the slot count
yields a valid image, every completed run returns exactly one pairwise
distinct path per slot, the delivery log has exactly one entry per slot, and
the consumed candidates are exactly the first `stems.length` pool elements —
each distinct, each consumed exactly once. -/
theorem c2_orchestrator_counts (att : Nat → String → Option String)
    (pool stems : List String) (s : DlState)
    (h : Reaches att (initState pool stems) s) :
    (results s).length ≤ stems.length ∧
    ((∀ i u, u ∈ pool → (att i u).isSome = true) →
      stems.length ≤ pool.length → stems.Nodup → pool.Nodup → Terminal s →
      (results s).length = stems.length ∧
      (results s).Nodup ∧
      s.log.length = stems.length ∧
      s.log.map Prod.snd = pool.take stems.length ∧
      (s.log.map Prod.snd).Nodup ∧
      s.pool = pool.drop stems.length) := by
  constructor
  · have hlen : s.tasks.length = stems.length := by
      rw [reaches_tasks_len h]
      simp [initState]
    calc (results s).length ≤ s.tasks.length := List.length_filterMap_le _ _
      _ = stems.length := hlen
  · intro hvalid hM hstems hpool hterm
    obtain ⟨hp, hl, hll, hst, hov⟩ := goodInv_reaches hvalid hM h
    have halldone : ∀ t ∈ s.tasks, isDone t = true := by
      intro t htm
      have h1 := hterm t htm
      have h2 := hov t htm
      cases hs2 : t.status with
      | done e => simp [isDone, hs2]
      | running => exact absurd hs2 h1
      | overflow => exact absurd hs2 h2
    have htlen : s.tasks.length = stems.length := by
      rw [← hst, List.length_map]
    have hdc : doneCount s = stems.length := by
      rw [doneCount, List.countP_eq_length.mpr halldone, htlen]
    obtain ⟨hrl, hrf⟩ := results_all_done s.tasks halldone
    refine ⟨?_, ?_, ?_, ?_, ?_, ?_⟩
    · rw [results, hrl, htlen]
    · have hfst : (results s).map Prod.fst = stems := by
        rw [results, hrf, hst]
      exact List.Nodup.of_map Prod.fst (hfst ▸ hstems)
    · rw [hll, hdc]
    · rw [hl, hdc]
    · rw [hl, hdc]
      exact hpool.sublist (List.take_sublist _ _)
    · rw [hp, hdc]

theorem dlStepW1 : DlStep attOK (initState poolW stemsW) stateW1 :=
  DlStep.pop_ok 0 ⟨"a", .running⟩ "u" ["v", "w"] "png" (by decide) (by decide)
    (by decide) (by decide)

theorem dlStepW2 : DlStep attOK stateW1 stateW2 :=
  DlStep.pop_ok 1 ⟨"b", .running⟩ "v" ["w"] "png" (by decide) (by decide)
    (by decide) (by decide)

theorem reachesW2 : Reaches attOK (initState poolW stemsW) stateW2 :=
  Reaches.tail (Reaches.tail (Reaches.refl _) dlStepW1) dlStepW2

/-- C2 (witness): the orchestrator theorem applied to a concrete completed
interleaving of two slots over a three-url pool of valid candidates. -/
theorem c2_orchestrator_counts_witness :
    (results stateW2).length ≤ stemsW.length ∧
    ((results stateW2).length = stemsW.length ∧
      (results stateW2).Nodup ∧
      stateW2.log.length = stemsW.length ∧
      stateW2.log.map Prod.snd = poolW.take stemsW.length ∧
      (stateW2.log.map Prod.snd).Nodup ∧
      stateW2.pool = poolW.drop stemsW.length) := by
  have h := c2_orchestrator_counts attOK poolW stemsW stateW2 reachesW2
  exact ⟨h.1, h.2 (fun i u _ => rfl) (by decide) (by decide) (by decide)
    (by unfold Terminal; decide)⟩

/-- C3: during the concurrent phase, every step leaves the shared pool
unchanged or removes its front element — its length never increases and
nothing (in particular no failed url) is ever placed back; and in every
reachable state of a duplicate-free pool the delivery log contains each url
at most once (no url is delivered to two tasks) and no delivered url is still
in the pool. -/
theorem c3_pool_monotone_unique (att : Nat → String → Option String)
    (pool stems : List String) :
    (∀ s s' : DlState, DlStep att s s' →
      (s'.pool = s.pool ∨ s'.pool = s.pool.tail) ∧
      s'.pool.length ≤ s.pool.length) ∧
    (∀ s : DlState, Reaches att (initState pool stems) s → pool.Nodup →
      (s.log.map Prod.snd).Nodup ∧
      s.log.all (fun p => !(s.pool.contains p.2)) = true) := by
  constructor
  · intro s s' h
    have hsh := dlStep_pool_shape h
    refine ⟨hsh, ?_⟩
    rcases hsh with h1 | h1
    · rw [h1]
    · rw [h1, List.length_tail]; omega
  · intro s hre hnd
    obtain ⟨k, hp, hl⟩ := reaches_pool_log hre
    constructor
    · rw [hl]
      exact hnd.sublist (List.take_sublist _ _)
    · refine List.all_eq_true.mpr ?_
      intro p hp2
      have hmem : p.2 ∈ pool.take k := by
        rw [← hl]
        exact List.mem_map_of_mem Prod.snd hp2
      have hdisj := List.disjoint_take_drop hnd (le_refl k)
      have hnot : p.2 ∉ pool.drop k := fun hc => hdisj hmem hc
      have hb : (pool.drop k).contains p.2 = false := by
        cases hbe : (pool.drop k).contains p.2
        · rfl
        · exact absurd (List.elem_iff.mp hbe) hnot
      rw [hp, hb]
      rfl

/-- C3 (witness): the invariants applied to a concrete step and a concrete
reachable state of the witness interleaving. -/
theorem c3_pool_monotone_unique_witness :
    (stateW1.pool = (initState poolW stemsW).pool ∨
      stateW1.pool = (initState poolW stemsW).pool.tail) ∧
    stateW1.pool.length ≤ (initState poolW stemsW).pool.length ∧
    (stateW2.log.map Prod.snd).Nodup ∧
    stateW2.log.all (fun p => !(stateW2.pool.contains p.2)) = true := by
  have h1 := (c3_pool_monotone_unique attOK poolW stemsW).1
    (initState poolW stemsW) stateW1
    (DlStep.pop_ok 0 ⟨"a", .running⟩ "u" ["v", "w"] "png" rfl rfl rfl rfl)
  have h2 := (c3_pool_monotone_unique attOK poolW stemsW).2 stateW2 reachesW2
    (by decide)
  exact ⟨h1.1, h1.2, h2.1, h2.2⟩

end ImageSearch
